import Mathlib

/-!
Shallow embedding of the `dgocacheler` message cache (`message_cache.go`).

A Go `*discordgo.Message` is modelled as `Option Msg` (`none` = nil pointer);
a `Msg` keeps the `ID` field and an opaque rest.  A `ChannelCache` mirrors the
Go struct field by field: `messages` is the backing array (length =
`maxMessages` in well-formed states), `messageIDs` the duplicate-detection
set, `head`/`size` the ring-buffer indices.  A `MessageCache` keeps the
channel directory (association list standing for the Go map; lookup takes the
first match, which coincides with map semantics since the API never creates a
key twice) and the `int32` default-capacity field, modelled as the
mathematical integer produced by two's-complement truncation (`int32wrap`).

Go functions returning `([]*discordgo.Message, error)` become `FetchResult`:
`err e` for a non-nil error, `nilSlice` for `(nil, nil)`, `ok l` for a
non-nil slice.  Mutating methods return `MessageCache × Option CacheError`.
Locks are dropped: every claim here is about the sequential semantics.
-/

namespace Dgocacheler

/-- A cached record: the Go `discordgo.Message`, reduced to the fields the
cache inspects (`ID`) plus opaque content. -/
structure Msg where
  id : String
  content : String
deriving DecidableEq

/-- Errors of `message_cache.go` (`ErrNilMessage`, `ErrInvalidChannel`,
`ErrCacheMiss`, `ErrInvalidLimit`). -/
inductive CacheError where
  | nilMessage
  | invalidChannel
  | cacheMiss
  | invalidLimit
deriving DecidableEq

/-- Result of a Go fetch method `([]*discordgo.Message, error)`:
`err e` = `(nil, e)`, `nilSlice` = `(nil, nil)`, `ok l` = non-nil slice. -/
inductive FetchResult where
  | err (e : CacheError)
  | nilSlice
  | ok (l : List (Option Msg))
deriving DecidableEq

/-- The Go `ChannelCache` struct (minus the mutex). -/
structure ChannelCache where
  messages : List (Option Msg)
  messageIDs : Finset String
  head : Nat
  size : Nat
  maxMessages : Nat
deriving DecidableEq

/-- The Go `MessageCache` struct (minus the mutex and the unused init flag).
`maxMessages` is the value held by the `int32` field. -/
structure MessageCache where
  channels : List (String × ChannelCache)
  maxMessages : Int
deriving DecidableEq

/-- Two's-complement truncation to 32 bits: the effect of `int32(n)` in Go. -/
def int32wrap (n : Int) : Int :=
  (n + 2 ^ 31) % 2 ^ 32 - 2 ^ 31

/-- Read the backing array: `l[i]` in Go, `nil` out of range (in-range by
well-formedness wherever the code indexes). -/
def slotAt (l : List (Option Msg)) (i : Nat) : Option Msg :=
  l[i]?.getD none

/-- `NewMessageCache`: non-positive capacity is replaced by the default 100;
the field stores the `int32` image of the result. -/
def newMessageCache (maxMessages : Int) : MessageCache :=
  let m := if maxMessages ≤ 0 then 100 else maxMessages
  { channels := [], maxMessages := int32wrap m }

/-- The channel cache freshly created for a key:
`make([]*discordgo.Message, maxMsgs)` (all-nil slots), empty id set. -/
def freshChannel (maxMsgs : Nat) : ChannelCache :=
  { messages := List.replicate maxMsgs none
    messageIDs := ∅
    head := 0
    size := 0
    maxMessages := maxMsgs }

/-- The capacity a channel created now would get:
`int(atomic.LoadInt32(&c.maxMessages))` in `AddMessage`/`AddMessages`. -/
def newChannelCapacityInt (c : MessageCache) : Int :=
  c.maxMessages

/-- Replace the value stored under key `k` in the directory. -/
def setChannel (chans : List (String × ChannelCache)) (k : String)
    (cc : ChannelCache) : List (String × ChannelCache) :=
  chans.map (fun p => if p.1 = k then (k, cc) else p)

/-- Body of `AddMessage` once the channel cache is in hand: duplicate check,
id recording, then the circular-buffer write.  Note: the full-buffer branch
overwrites `messages[head]` and advances `head` but never deletes the evicted
record's id from `messageIDs` (unlike the batch loop below). -/
def addMessageBuf (cc : ChannelCache) (m : Msg) : ChannelCache :=
  if m.id ∈ cc.messageIDs then cc
  else
    let cc1 := { cc with messageIDs := insert m.id cc.messageIDs }
    if cc1.size < cc1.maxMessages then
      { cc1 with
          messages := cc1.messages.set ((cc1.head + cc1.size) % cc1.maxMessages) (some m)
          size := cc1.size + 1 }
    else
      { cc1 with
          messages := cc1.messages.set cc1.head (some m)
          head := (cc1.head + 1) % cc1.maxMessages }

/-- One iteration of the `AddMessages` loop: skip nil, skip duplicates,
record the id, write into the buffer; on a full buffer the evicted slot's id
is deleted from `messageIDs` (when the slot is non-nil) before overwrite. -/
def addMessagesStep (cc : ChannelCache) (om : Option Msg) : ChannelCache :=
  match om with
  | none => cc
  | some m =>
    if m.id ∈ cc.messageIDs then cc
    else
      let cc1 := { cc with messageIDs := insert m.id cc.messageIDs }
      if cc1.size < cc1.maxMessages then
        { cc1 with
            messages := cc1.messages.set ((cc1.head + cc1.size) % cc1.maxMessages) (some m)
            size := cc1.size + 1 }
      else
        let ids2 := match slotAt cc1.messages cc1.head with
          | some oldest => cc1.messageIDs.erase oldest.id
          | none => cc1.messageIDs
        { cc1 with
            messageIDs := ids2
            messages := cc1.messages.set cc1.head (some m)
            head := (cc1.head + 1) % cc1.maxMessages }

/-- The `AddMessages` loop over the whole batch. -/
def addMessagesBuf (cc : ChannelCache) (ms : List (Option Msg)) : ChannelCache :=
  ms.foldl addMessagesStep cc

/-- `MessageCache.AddMessage`.  The nil check precedes the empty-key check,
exactly as in the source.  Creation installs a fresh channel of the current
default capacity (`toNat` of the loaded `int32`; the claims only exercise
positive defaults, where this is exact). -/
def MessageCache.addMessage (c : MessageCache) (channelID : String)
    (message : Option Msg) : MessageCache × Option CacheError :=
  match message with
  | none => (c, some .nilMessage)
  | some m =>
    if channelID = "" then (c, some .invalidChannel)
    else
      match c.channels.lookup channelID with
      | some cc =>
          ({ c with channels := setChannel c.channels channelID (addMessageBuf cc m) },
           none)
      | none =>
          let cc := freshChannel c.maxMessages.toNat
          ({ c with channels := (channelID, addMessageBuf cc m) :: c.channels },
           none)

/-- `MessageCache.AddMessages`: empty-key check, empty-batch early success,
then the batch loop on the (possibly fresh) channel cache. -/
def MessageCache.addMessages (c : MessageCache) (channelID : String)
    (ms : List (Option Msg)) : MessageCache × Option CacheError :=
  if channelID = "" then (c, some .invalidChannel)
  else if ms.length = 0 then (c, none)
  else
    match c.channels.lookup channelID with
    | some cc =>
        ({ c with channels := setChannel c.channels channelID (addMessagesBuf cc ms) },
         none)
    | none =>
        let cc := freshChannel c.maxMessages.toNat
        ({ c with channels := (channelID, addMessagesBuf cc ms) :: c.channels },
         none)

/-- Body of `GetMessages` on a channel cache: empty fast path, contiguous
slice view `messages[head : head+size]`, or the two-segment wraparound copy. -/
def getMessagesBuf (cc : ChannelCache) : List (Option Msg) :=
  if cc.size = 0 then []
  else if cc.head + cc.size ≤ cc.maxMessages then
    (cc.messages.drop cc.head).take cc.size
  else
    cc.messages.drop cc.head ++
      cc.messages.take (cc.size - (cc.maxMessages - cc.head))

/-- `MessageCache.GetMessages`: empty key, cache miss, else the buffer
snapshot (a non-nil slice even when empty). -/
def MessageCache.getMessages (c : MessageCache) (channelID : String) : FetchResult :=
  if channelID = "" then .err .invalidChannel
  else
    match c.channels.lookup channelID with
    | none => .err .cacheMiss
    | some cc => .ok (getMessagesBuf cc)

/-- `MessageCache.GetMessagesUnsafe`: same error checks; `(nil, nil)` when
empty; the whole backing array when `head = 0` and the buffer is full;
otherwise it falls back to `GetMessages`. -/
def MessageCache.getMessagesUnsafe (c : MessageCache) (channelID : String) :
    FetchResult :=
  if channelID = "" then .err .invalidChannel
  else
    match c.channels.lookup channelID with
    | none => .err .cacheMiss
    | some cc =>
      if cc.size = 0 then .nilSlice
      else if cc.head = 0 ∧ cc.size = cc.messages.length then .ok cc.messages
      else c.getMessages channelID

/-- Body of `GetMessagesLimit` on a channel cache, after the limit has been
checked positive: empty fast path, clamp to `size`, full-request delegation
to `GetMessages`, then the three window branches of the source (direct view,
two-segment copy, element-by-element loop). -/
def getMessagesLimitBuf (cc : ChannelCache) (limit : Nat) : List (Option Msg) :=
  if cc.size = 0 then []
  else
    let lim := if limit > cc.size then cc.size else limit
    if lim = cc.size then getMessagesBuf cc
    else
      let startIdx := (cc.head + cc.size - lim) % cc.maxMessages
      if startIdx + lim ≤ cc.maxMessages then
        (cc.messages.drop startIdx).take lim
      else if startIdx > cc.head then
        cc.messages.drop startIdx ++
          cc.messages.take (lim - (cc.maxMessages - startIdx))
      else
        (List.range lim).map (fun i => slotAt cc.messages ((startIdx + i) % cc.maxMessages))

/-- `MessageCache.GetMessagesLimit`: empty key, non-positive limit, cache
miss, else the limited snapshot. -/
def MessageCache.getMessagesLimit (c : MessageCache) (channelID : String)
    (limit : Int) : FetchResult :=
  if channelID = "" then .err .invalidChannel
  else if limit ≤ 0 then .err .invalidLimit
  else
    match c.channels.lookup channelID with
    | none => .err .cacheMiss
    | some cc => .ok (getMessagesLimitBuf cc limit.toNat)

/-- Body of `ClearChannel`: reset `head`/`size`, fresh id map; the backing
array is left as is. -/
def clearBuf (cc : ChannelCache) : ChannelCache :=
  { cc with head := 0, size := 0, messageIDs := ∅ }

/-- `MessageCache.ClearChannel`: empty key fails, absent key is a silent
no-op, else the buffer is cleared. -/
def MessageCache.clearChannel (c : MessageCache) (channelID : String) :
    MessageCache × Option CacheError :=
  if channelID = "" then (c, some .invalidChannel)
  else
    match c.channels.lookup channelID with
    | none => (c, none)
    | some cc =>
        ({ c with channels := setChannel c.channels channelID (clearBuf cc) }, none)

/-- Per-channel body of `SetMaxMessages`.  Growing (`newMax ≥ old`): copy the
logical window to the front of a fresh array, `head = 0`, id map untouched.
Shrinking: keep the most recent `min(size, newMax)` entries at the front and
rebuild the id map from the kept non-nil records. -/
def setMaxBuf (cc : ChannelCache) (newMax : Nat) : ChannelCache :=
  if newMax ≥ cc.maxMessages then
    { messages := (List.range newMax).map
        (fun i => if i < cc.size then slotAt cc.messages ((cc.head + i) % cc.maxMessages) else none)
      messageIDs := cc.messageIDs
      head := 0
      size := cc.size
      maxMessages := newMax }
  else
    let newSize := min cc.size newMax
    let startIdx := cc.size - newSize
    let newMessages := (List.range newMax).map
      (fun i => if i < newSize then slotAt cc.messages ((cc.head + startIdx + i) % cc.maxMessages) else none)
    { messages := newMessages
      messageIDs := ((newMessages.take newSize).filterMap (fun om => om.map Msg.id)).toFinset
      head := 0
      size := newSize
      maxMessages := newMax }

/-- `MessageCache.SetMaxMessages`: non-positive capacity fails; otherwise the
`int32` default is stored (truncated) and every existing channel is resized
with the untruncated value. -/
def MessageCache.setMaxMessages (c : MessageCache) (maxMessages : Int) :
    MessageCache × Option CacheError :=
  if maxMessages ≤ 0 then (c, some .invalidLimit)
  else
    ({ channels := c.channels.map (fun p => (p.1, setMaxBuf p.2 maxMessages.toNat))
       maxMessages := int32wrap maxMessages },
     none)

/-- A producer inserting a sequence of records one `AddMessage` at a time. -/
def addAll (c : MessageCache) (k : String) (ms : List Msg) : MessageCache :=
  ms.foldl (fun c m => (c.addMessage k (some m)).1) c

/-- Concrete sample records with pairwise-distinct non-empty ids. -/
def sampleMsgs : List Msg :=
  [⟨"0", ""⟩, ⟨"1", ""⟩, ⟨"2", ""⟩, ⟨"3", ""⟩, ⟨"4", ""⟩]

/-- Five sample inserts into a capacity-3 cache: the window has wrapped. -/
def sampleCache3 : MessageCache := addAll (newMessageCache 3) "ch" sampleMsgs

/-- The capacity-3 buffer after the five sample inserts. -/
def sampleBuf3 : ChannelCache := sampleMsgs.foldl addMessageBuf (freshChannel 3)

/-- Five sample inserts into a capacity-5 cache: exactly full, no wrap. -/
def sampleCache5 : MessageCache := addAll (newMessageCache 5) "ch" sampleMsgs

/-- The capacity-5 buffer after the five sample inserts. -/
def sampleBuf5 : ChannelCache := sampleMsgs.foldl addMessageBuf (freshChannel 5)

/-- A cache whose key exists with an empty buffer: created by a batch whose
only element is nil (skipped without error). -/
def emptyChanCache : MessageCache :=
  ((newMessageCache 5).addMessages "ch" [none]).1

/-- The logical content of a channel cache:
`slots[(head+i) mod capacity]` for `i ∈ [0, size)`. -/
def logicalList (cc : ChannelCache) : List (Option Msg) :=
  (List.range cc.size).map (fun i => slotAt cc.messages ((cc.head + i) % cc.maxMessages))

/-- Ids of the records resident in the logically valid region. -/
def residentIds (cc : ChannelCache) : Finset String :=
  ((logicalList cc).filterMap (fun om => om.map Msg.id)).toFinset

/-- Structural well-formedness of a channel cache: the backing array has
exactly `capacity` slots, `head` is a valid index (forcing `capacity > 0`),
and at most `capacity` entries are live. -/
def WF (cc : ChannelCache) : Prop :=
  cc.messages.length = cc.maxMessages ∧ cc.head < cc.maxMessages ∧
    cc.size ≤ cc.maxMessages

instance (cc : ChannelCache) : Decidable (WF cc) := by
  unfold WF
  infer_instance

/-! ### Basic lemmas about slots, the logical list, and the directory -/

theorem slotAt_set_eq (l : List (Option Msg)) (i : Nat) (v : Option Msg)
    (h : i < l.length) : slotAt (l.set i v) i = v := by
  simp [slotAt, List.getElem?_set_self h]

theorem slotAt_set_ne (l : List (Option Msg)) {i j : Nat} (v : Option Msg)
    (h : i ≠ j) : slotAt (l.set i v) j = slotAt l j := by
  simp [slotAt, List.getElem?_set_ne h]

theorem slotAt_of_lt (l : List (Option Msg)) (i : Nat) (h : i < l.length) :
    slotAt l i = l[i] := by
  simp [slotAt, List.getElem?_eq_getElem h]

theorem logicalList_length (cc : ChannelCache) :
    (logicalList cc).length = cc.size := by
  simp [logicalList]

theorem logicalList_getElem? (cc : ChannelCache) (i : Nat) :
    (logicalList cc)[i]? =
      if i < cc.size then some (slotAt cc.messages ((cc.head + i) % cc.maxMessages))
      else none := by
  by_cases hi : i < cc.size
  · rw [logicalList, List.getElem?_map, List.getElem?_range hi, if_pos hi]
    rfl
  · rw [if_neg hi, List.getElem?_eq_none]
    rw [logicalList_length]
    omega

/-- Cancellation of the ring-index map `i ↦ (head + i) % capacity` on indices
below the capacity. -/
theorem ringIdx_inj {C i j : Nat} (h : Nat) (hi : i < C) (hj : j < C)
    (heq : (h + i) % C = (h + j) % C) : i = j := by
  have h2 : i % C = j % C := Nat.ModEq.add_left_cancel' h heq
  rwa [Nat.mod_eq_of_lt hi, Nat.mod_eq_of_lt hj] at h2

theorem lookup_cons_self (t : List (String × ChannelCache)) (k : String)
    (b : ChannelCache) : ((k, b) :: t).lookup k = some b := by
  simp [List.lookup]

theorem lookup_cons_ne (t : List (String × ChannelCache)) {k a : String}
    (b : ChannelCache) (h : k ≠ a) : ((a, b) :: t).lookup k = t.lookup k := by
  simp [List.lookup, beq_eq_false_iff_ne.mpr h]

theorem setChannel_cons (t : List (String × ChannelCache)) (a k : String)
    (b v : ChannelCache) :
    setChannel ((a, b) :: t) k v =
      (if a = k then (k, v) else (a, b)) :: setChannel t k v := by
  simp [setChannel]

theorem lookup_setChannel_self {l : List (String × ChannelCache)} {k : String}
    {cc : ChannelCache} (hl : l.lookup k = some cc) (v : ChannelCache) :
    (setChannel l k v).lookup k = some v := by
  induction l with
  | nil => simp [List.lookup] at hl
  | cons p t ih =>
      obtain ⟨a, b⟩ := p
      rw [setChannel_cons]
      by_cases hp : a = k
      · rw [if_pos hp, lookup_cons_self]
      · rw [if_neg hp, lookup_cons_ne _ _ (fun he => hp he.symm)]
        rw [lookup_cons_ne _ _ (fun he => hp he.symm)] at hl
        exact ih hl

theorem lookup_setChannel_ne {l : List (String × ChannelCache)} {k k' : String}
    (v : ChannelCache) (h : k' ≠ k) :
    (setChannel l k v).lookup k' = l.lookup k' := by
  induction l with
  | nil => rfl
  | cons p t ih =>
      obtain ⟨a, b⟩ := p
      rw [setChannel_cons]
      by_cases hp : a = k
      · rw [if_pos hp, lookup_cons_ne _ _ h, lookup_cons_ne _ _ (hp ▸ h)]
        exact ih
      · rw [if_neg hp]
        by_cases hk : k' = a
        · subst hk
          rw [lookup_cons_self, lookup_cons_self]
        · rw [lookup_cons_ne _ _ hk, lookup_cons_ne _ _ hk]
          exact ih

theorem setChannel_of_lookup_none {l : List (String × ChannelCache)}
    {k : String} (hl : l.lookup k = none) (v : ChannelCache) :
    setChannel l k v = l := by
  induction l with
  | nil => rfl
  | cons p t ih =>
      obtain ⟨a, b⟩ := p
      by_cases hp : a = k
      · subst hp
        rw [lookup_cons_self] at hl
        exact absurd hl (by simp)
      · rw [lookup_cons_ne _ _ (fun he => hp he.symm)] at hl
        rw [setChannel_cons, if_neg hp, ih hl]

theorem lookup_map_snd (l : List (String × ChannelCache))
    (f : ChannelCache → ChannelCache) (k : String) :
    ((l.map (fun p => (p.1, f p.2))).lookup k) = (l.lookup k).map f := by
  induction l with
  | nil => rfl
  | cons p t ih =>
      obtain ⟨a, b⟩ := p
      by_cases hk : k = a
      · subst hk
        show List.lookup k ((k, f b) :: t.map (fun p => (p.1, f p.2))) =
          Option.map f (List.lookup k ((k, b) :: t))
        rw [lookup_cons_self, lookup_cons_self]
        rfl
      · show List.lookup k ((a, f b) :: t.map (fun p => (p.1, f p.2))) =
          Option.map f (List.lookup k ((a, b) :: t))
        rw [lookup_cons_ne _ _ hk, lookup_cons_ne _ _ hk]
        exact ih

/-! ### The snapshot equals the logical window -/

theorem getMessagesBuf_eq_logical {cc : ChannelCache} (h : WF cc) :
    getMessagesBuf cc = logicalList cc := by
  obtain ⟨hlen, hhead, hsize⟩ := h
  by_cases h0 : cc.size = 0
  · simp [getMessagesBuf, logicalList, h0]
  · by_cases hc : cc.head + cc.size ≤ cc.maxMessages
    · rw [getMessagesBuf, if_neg h0, if_pos hc]
      refine List.ext_getElem? fun i => ?_
      rw [logicalList_getElem?]
      by_cases hi : i < cc.size
      · rw [List.getElem?_take_of_lt hi, List.getElem?_drop, if_pos hi]
        have hmod : (cc.head + i) % cc.maxMessages = cc.head + i :=
          Nat.mod_eq_of_lt (by omega)
        have hin : cc.head + i < cc.messages.length := by omega
        rw [hmod, slotAt_of_lt _ _ hin, List.getElem?_eq_getElem hin]
      · rw [if_neg hi, List.getElem?_eq_none]
        rw [List.length_take, List.length_drop]
        omega
    · rw [getMessagesBuf, if_neg h0, if_neg hc]
      refine List.ext_getElem? fun i => ?_
      rw [logicalList_getElem?]
      have hdlen : (cc.messages.drop cc.head).length = cc.maxMessages - cc.head := by
        rw [List.length_drop, hlen]
      by_cases hi : i < cc.size
      · rw [if_pos hi]
        by_cases hseg : i < cc.maxMessages - cc.head
        · rw [List.getElem?_append_left (by omega), List.getElem?_drop]
          have hmod : (cc.head + i) % cc.maxMessages = cc.head + i :=
            Nat.mod_eq_of_lt (by omega)
          have hin : cc.head + i < cc.messages.length := by omega
          rw [hmod, slotAt_of_lt _ _ hin, List.getElem?_eq_getElem hin]
        · rw [List.getElem?_append_right (by omega)]
          have hmod : (cc.head + i) % cc.maxMessages = cc.head + i - cc.maxMessages := by
            rw [Nat.mod_eq_sub_mod (by omega)]
            have : cc.head + i - cc.maxMessages < cc.maxMessages := by omega
            rw [Nat.mod_eq_of_lt this]
          have hidx : i - (cc.messages.drop cc.head).length = cc.head + i - cc.maxMessages := by
            rw [hdlen]; omega
          rw [hidx, hmod]
          have hlt : cc.head + i - cc.maxMessages < cc.size - (cc.maxMessages - cc.head) := by
            omega
          rw [List.getElem?_take_of_lt hlt]
          have hin : cc.head + i - cc.maxMessages < cc.messages.length := by omega
          rw [slotAt_of_lt _ _ hin, List.getElem?_eq_getElem hin]
      · rw [if_neg hi, List.getElem?_eq_none]
        rw [List.length_append, hdlen, List.length_take]
        omega

/-! ### Effect of a single insert on the logical window -/

theorem addMessageBuf_dup {cc : ChannelCache} {m : Msg}
    (h : m.id ∈ cc.messageIDs) : addMessageBuf cc m = cc := by
  rw [addMessageBuf, if_pos h]

theorem addMessageBuf_fresh_notFull {cc : ChannelCache} {m : Msg}
    (hfresh : m.id ∉ cc.messageIDs) (hlt : cc.size < cc.maxMessages) :
    addMessageBuf cc m =
      { cc with
          messageIDs := insert m.id cc.messageIDs
          messages := cc.messages.set ((cc.head + cc.size) % cc.maxMessages) (some m)
          size := cc.size + 1 } := by
  rw [addMessageBuf, if_neg hfresh]
  exact if_pos hlt

theorem addMessageBuf_fresh_full {cc : ChannelCache} {m : Msg}
    (hfresh : m.id ∉ cc.messageIDs) (hge : ¬ cc.size < cc.maxMessages) :
    addMessageBuf cc m =
      { cc with
          messageIDs := insert m.id cc.messageIDs
          messages := cc.messages.set cc.head (some m)
          head := (cc.head + 1) % cc.maxMessages } := by
  rw [addMessageBuf, if_neg hfresh]
  exact if_neg hge

theorem logical_insert_notFull {cc : ChannelCache} {m : Msg} (hWF : WF cc)
    (hfresh : m.id ∉ cc.messageIDs) (hlt : cc.size < cc.maxMessages) :
    logicalList (addMessageBuf cc m) = logicalList cc ++ [some m] ∧
      WF (addMessageBuf cc m) ∧
      (addMessageBuf cc m).messageIDs = insert m.id cc.messageIDs ∧
      (addMessageBuf cc m).size = cc.size + 1 ∧
      (addMessageBuf cc m).maxMessages = cc.maxMessages := by
  obtain ⟨hlen, hhead, hsize⟩ := hWF
  rw [addMessageBuf_fresh_notFull hfresh hlt]
  refine ⟨?_, ⟨by simpa using hlen, by simpa using hhead, by simpa using hlt⟩, rfl, rfl, rfl⟩
  rw [logicalList, logicalList]
  simp only
  rw [show cc.size + 1 = cc.size + 1 from rfl, List.range_succ, List.map_append]
  congr 1
  · refine List.map_congr_left fun i hi => ?_
    rw [List.mem_range] at hi
    refine slotAt_set_ne _ _ fun he => ?_
    have : cc.size = i :=
      ringIdx_inj cc.head hlt (by omega) he
    omega
  · rw [List.map_singleton]
    have hidx : (cc.head + cc.size) % cc.maxMessages < cc.messages.length := by
      rw [hlen]
      exact Nat.mod_lt _ (by omega)
    rw [slotAt_set_eq _ _ _ hidx]

theorem logical_insert_full {cc : ChannelCache} {m : Msg} (hWF : WF cc)
    (hfresh : m.id ∉ cc.messageIDs) (hfull : cc.size = cc.maxMessages) :
    logicalList (addMessageBuf cc m) = (logicalList cc).drop 1 ++ [some m] ∧
      WF (addMessageBuf cc m) ∧
      (addMessageBuf cc m).messageIDs = insert m.id cc.messageIDs ∧
      (addMessageBuf cc m).size = cc.size ∧
      (addMessageBuf cc m).maxMessages = cc.maxMessages := by
  obtain ⟨hlen, hhead, hsize⟩ := hWF
  have hC : 0 < cc.maxMessages := by omega
  rw [addMessageBuf_fresh_full hfresh (by omega)]
  refine ⟨?_, ⟨by simpa using hlen, by simpa using Nat.mod_lt _ hC, by simpa using hsize⟩,
    rfl, rfl, rfl⟩
  refine List.ext_getElem? fun i => ?_
  rw [logicalList_getElem?]
  simp only
  have hdroplen : ((logicalList cc).drop 1).length = cc.size - 1 := by
    rw [List.length_drop, logicalList_length]
  by_cases hi : i < cc.size
  · rw [if_pos hi]
    by_cases hlast : i < cc.size - 1
    · rw [List.getElem?_append_left (by omega)]
      rw [List.getElem?_drop, logicalList_getElem?, if_pos (by omega)]
      have hm1 : ((cc.head + 1) % cc.maxMessages + i) % cc.maxMessages =
          (cc.head + (1 + i)) % cc.maxMessages := by
        rw [Nat.mod_add_mod, Nat.add_assoc]
      rw [hm1]
      refine congrArg some (slotAt_set_ne _ _ fun he => ?_)
      have h0 : (cc.head + 0) % cc.maxMessages = cc.head := by
        rw [Nat.add_zero, Nat.mod_eq_of_lt hhead]
      have : 1 + i = 0 := ringIdx_inj cc.head (by omega) hC (by rw [h0]; exact he.symm)
      omega
    · have hieq : i = cc.size - 1 := by omega
      rw [List.getElem?_append_right (by omega)]
      rw [hdroplen, hieq]
      have hz : cc.size - 1 - (cc.size - 1) = 0 := by omega
      rw [hz]
      have hm2 : ((cc.head + 1) % cc.maxMessages + (cc.size - 1)) % cc.maxMessages = cc.head := by
        rw [Nat.mod_add_mod]
        have : cc.head + 1 + (cc.size - 1) = cc.head + cc.maxMessages := by omega
        rw [this, Nat.add_mod_right, Nat.mod_eq_of_lt hhead]
      rw [hm2]
      rw [slotAt_set_eq _ _ _ (by omega)]
      rfl
  · rw [if_neg hi, List.getElem?_eq_none]
    rw [List.length_append, hdroplen]
    simp only [List.length_singleton]
    omega

/-- State of a fresh buffer of capacity `C` after inserting a list of records
with pairwise-distinct ids, one `AddMessage` body at a time: well-formed,
ids recorded, and the logical window is the most recent `min N C` records in
insertion order. -/
theorem foldl_addMessageBuf_fresh (C : Nat) (hC : 0 < C) (ms : List Msg)
    (hnd : (ms.map Msg.id).Nodup) :
    WF (ms.foldl addMessageBuf (freshChannel C)) ∧
    (ms.foldl addMessageBuf (freshChannel C)).maxMessages = C ∧
    (ms.foldl addMessageBuf (freshChannel C)).size = min ms.length C ∧
    (ms.foldl addMessageBuf (freshChannel C)).messageIDs = (ms.map Msg.id).toFinset ∧
    logicalList (ms.foldl addMessageBuf (freshChannel C)) =
      (ms.map some).drop (ms.length - C) := by
  induction ms using List.reverseRecOn with
  | nil =>
      refine ⟨⟨by simp [freshChannel], by simpa [freshChannel] using hC,
        by simp [freshChannel]⟩, rfl, by simp [freshChannel], by simp [freshChannel], ?_⟩
      simp [logicalList, freshChannel]
  | append_singleton ms m ih =>
      rw [List.map_append, List.map_singleton] at hnd
      rcases List.nodup_append.mp hnd with ⟨hnd1, _, hdisj⟩
      have hfreshid : m.id ∉ ms.map Msg.id := fun hmem => (hdisj hmem) (by simp)
      obtain ⟨hWF, hmax, hsz, hids, hlog⟩ := ih hnd1
      have hfoldstep : (ms ++ [m]).foldl addMessageBuf (freshChannel C) =
          addMessageBuf (ms.foldl addMessageBuf (freshChannel C)) m := by
        rw [List.foldl_append, List.foldl_cons, List.foldl_nil]
      rw [hfoldstep]
      have hfresh : m.id ∉ (ms.foldl addMessageBuf (freshChannel C)).messageIDs := by
        rw [hids, List.mem_toFinset]
        exact hfreshid
      have hidsStep : insert m.id (ms.foldl addMessageBuf (freshChannel C)).messageIDs =
          ((ms ++ [m]).map Msg.id).toFinset := by
        rw [List.map_append, List.map_singleton, List.toFinset_append, Finset.union_comm,
          hids]
        rfl
      rcases Nat.lt_or_ge (ms.foldl addMessageBuf (freshChannel C)).size
          (ms.foldl addMessageBuf (freshChannel C)).maxMessages with hlt | hge
      · obtain ⟨hlog2, hWF2, hids2, hsz2, hmax2⟩ := logical_insert_notFull hWF hfresh hlt
        have hNC : ms.length < C := by
          rw [hsz, hmax] at hlt
          omega
        refine ⟨hWF2, hmax2.trans hmax, ?_, hids2.trans hidsStep, ?_⟩
        · rw [hsz2, hsz, List.length_append, List.length_singleton]
          omega
        · rw [hlog2, hlog, List.map_append, List.map_singleton, List.length_append,
            List.length_singleton]
          have h1 : ms.length - C = 0 := by omega
          have h2 : ms.length + 1 - C = 0 := by omega
          rw [h1, h2, List.drop_zero, List.drop_zero]
      · have hfull : (ms.foldl addMessageBuf (freshChannel C)).size =
            (ms.foldl addMessageBuf (freshChannel C)).maxMessages := by
          obtain ⟨_, _, hle⟩ := hWF
          omega
        obtain ⟨hlog2, hWF2, hids2, hsz2, hmax2⟩ := logical_insert_full hWF hfresh hfull
        have hNC : C ≤ ms.length := by
          rw [hsz, hmax] at hfull
          omega
        refine ⟨hWF2, hmax2.trans hmax, ?_, hids2.trans hidsStep, ?_⟩
        · rw [hsz2, hsz, List.length_append, List.length_singleton]
          omega
        · rw [hlog2, hlog, List.drop_drop, List.map_append, List.map_singleton,
            List.length_append, List.length_singleton]
          rw [List.drop_append_of_le_length (by
            rw [List.length_map]
            omega)]
          have h3 : ms.length - C + 1 = ms.length + 1 - C := by omega
          rw [h3]

/-! ### The limited snapshot is the suffix of the logical window -/

theorem getMessagesLimitBuf_eq {cc : ChannelCache} (hWF : WF cc) (L : Nat) :
    getMessagesLimitBuf cc L = (logicalList cc).drop (cc.size - L) := by
  obtain ⟨hlen, hhead, hsize⟩ := hWF
  have hC : 0 < cc.maxMessages := by omega
  by_cases h0 : cc.size = 0
  · rw [getMessagesLimitBuf, if_pos h0]
    have hnil : logicalList cc = [] :=
      List.eq_nil_of_length_eq_zero ((logicalList_length cc).trans h0)
    rw [hnil, List.drop_nil]
  · by_cases hge : cc.size ≤ L
    · have hdz : cc.size - L = 0 := by omega
      rw [getMessagesLimitBuf, if_neg h0, hdz, List.drop_zero]
      simp only
      rcases Nat.lt_or_ge cc.size L with hlt | hge2
      · have hl1 : (if L > cc.size then cc.size else L) = cc.size := if_pos hlt
        rw [hl1, if_pos rfl]
        exact getMessagesBuf_eq_logical ⟨hlen, hhead, hsize⟩
      · have hLS : L = cc.size := by omega
        have hl1 : (if L > cc.size then cc.size else L) = L := if_neg (by omega)
        rw [hl1, if_pos hLS]
        exact getMessagesBuf_eq_logical ⟨hlen, hhead, hsize⟩
    · have hL : L < cc.size := by omega
      rw [getMessagesLimitBuf, if_neg h0]
      simp only
      have hl1 : (if L > cc.size then cc.size else L) = L := if_neg (by omega)
      rw [hl1, if_neg (show ¬ L = cc.size by omega)]
      have hRHS : ∀ j : Nat,
          ((logicalList cc).drop (cc.size - L))[j]? =
            if j < L then
              some (slotAt cc.messages
                (((cc.head + cc.size - L) % cc.maxMessages + j) % cc.maxMessages))
            else none := by
        intro j
        rw [List.getElem?_drop, logicalList_getElem?]
        by_cases hj : j < L
        · rw [if_pos (by omega), if_pos hj]
          have he : cc.head + (cc.size - L + j) = cc.head + cc.size - L + j := by omega
          rw [he, Nat.mod_add_mod]
        · rw [if_neg (by omega), if_neg hj]
      have hstart : (cc.head + cc.size - L) % cc.maxMessages < cc.maxMessages :=
        Nat.mod_lt _ hC
      set startIdx := (cc.head + cc.size - L) % cc.maxMessages with hstartdef
      by_cases hA : startIdx + L ≤ cc.maxMessages
      · rw [if_pos hA]
        refine List.ext_getElem? fun j => ?_
        rw [hRHS j]
        by_cases hj : j < L
        · rw [List.getElem?_take_of_lt hj, List.getElem?_drop, if_pos hj]
          have hmod : (startIdx + j) % cc.maxMessages = startIdx + j :=
            Nat.mod_eq_of_lt (by omega)
          have hin : startIdx + j < cc.messages.length := by omega
          rw [hmod, slotAt_of_lt _ _ hin, List.getElem?_eq_getElem hin]
        · rw [if_neg hj, List.getElem?_eq_none]
          rw [List.length_take, List.length_drop]
          omega
      · rw [if_neg hA]
        have hseglen : (cc.messages.drop startIdx).length = cc.maxMessages - startIdx := by
          rw [List.length_drop, hlen]
        by_cases hB : startIdx > cc.head
        · rw [if_pos hB]
          refine List.ext_getElem? fun j => ?_
          rw [hRHS j]
          by_cases hj : j < L
          · rw [if_pos hj]
            by_cases hseg : j < cc.maxMessages - startIdx
            · rw [List.getElem?_append_left (by omega), List.getElem?_drop]
              have hmod : (startIdx + j) % cc.maxMessages = startIdx + j :=
                Nat.mod_eq_of_lt (by omega)
              have hin : startIdx + j < cc.messages.length := by omega
              rw [hmod, slotAt_of_lt _ _ hin, List.getElem?_eq_getElem hin]
            · rw [List.getElem?_append_right (by omega), hseglen]
              have hmod : (startIdx + j) % cc.maxMessages = startIdx + j - cc.maxMessages := by
                rw [Nat.mod_eq_sub_mod (by omega)]
                exact Nat.mod_eq_of_lt (by omega)
              have hidx : j - (cc.maxMessages - startIdx) = startIdx + j - cc.maxMessages := by
                omega
              rw [hidx, hmod]
              have hlt2 : startIdx + j - cc.maxMessages < L - (cc.maxMessages - startIdx) := by
                omega
              rw [List.getElem?_take_of_lt hlt2]
              have hin : startIdx + j - cc.maxMessages < cc.messages.length := by omega
              rw [slotAt_of_lt _ _ hin, List.getElem?_eq_getElem hin]
          · rw [if_neg hj, List.getElem?_eq_none]
            rw [List.length_append, hseglen, List.length_take]
            omega
        · rw [if_neg hB]
          refine List.ext_getElem? fun j => ?_
          rw [hRHS j]
          by_cases hj : j < L
          · rw [List.getElem?_map, List.getElem?_range hj, if_pos hj]
            rfl
          · rw [if_neg hj, List.getElem?_eq_none]
            rw [List.length_map, List.length_range]
            omega

/-! ### Effect of a resize on the logical window -/

theorem slotAt_rangeMap (f : Nat → Option Msg) {n i : Nat} (h : i < n) :
    slotAt ((List.range n).map f) i = f i := by
  rw [slotAt, List.getElem?_map, List.getElem?_range h]
  rfl

theorem setMaxBuf_grow {cc : ChannelCache} (hWF : WF cc) {newMax : Nat}
    (hge : cc.maxMessages ≤ newMax) :
    logicalList (setMaxBuf cc newMax) = logicalList cc ∧
    (setMaxBuf cc newMax).head = 0 ∧
    (setMaxBuf cc newMax).size = cc.size ∧
    (setMaxBuf cc newMax).messageIDs = cc.messageIDs ∧
    (setMaxBuf cc newMax).maxMessages = newMax ∧
    WF (setMaxBuf cc newMax) := by
  obtain ⟨hlen, hhead, hsize⟩ := hWF
  rw [setMaxBuf, if_pos hge]
  refine ⟨?_, rfl, rfl, rfl, rfl,
    by simp, by simpa using by omega, by simpa using by omega⟩
  rw [logicalList, logicalList]
  simp only
  refine List.map_congr_left fun i hi => ?_
  rw [List.mem_range] at hi
  have h1 : (0 + i) % newMax = i := by
    rw [Nat.zero_add, Nat.mod_eq_of_lt (by omega)]
  rw [h1, slotAt_rangeMap _ (by omega), if_pos hi]

theorem setMaxBuf_shrink {cc : ChannelCache} (hWF : WF cc) {newMax : Nat}
    (hlt : newMax < cc.maxMessages) (hpos : 0 < newMax) :
    logicalList (setMaxBuf cc newMax) =
      (logicalList cc).drop (cc.size - min cc.size newMax) ∧
    (setMaxBuf cc newMax).head = 0 ∧
    (setMaxBuf cc newMax).size = min cc.size newMax ∧
    (setMaxBuf cc newMax).messageIDs =
      (((logicalList cc).drop (cc.size - min cc.size newMax)).filterMap
        (fun om => om.map Msg.id)).toFinset ∧
    (setMaxBuf cc newMax).maxMessages = newMax ∧
    WF (setMaxBuf cc newMax) := by
  obtain ⟨hlen, hhead, hsize⟩ := hWF
  rw [setMaxBuf, if_neg (by omega)]
  simp only
  have hlog : logicalList
      { messages := (List.range newMax).map
          (fun i => if i < min cc.size newMax then
            slotAt cc.messages ((cc.head + (cc.size - min cc.size newMax) + i) % cc.maxMessages)
          else none)
        messageIDs := (((List.range newMax).map
          (fun i => if i < min cc.size newMax then
            slotAt cc.messages ((cc.head + (cc.size - min cc.size newMax) + i) % cc.maxMessages)
          else none)).take (min cc.size newMax)).filterMap (fun om => om.map Msg.id) |>.toFinset
        head := 0
        size := min cc.size newMax
        maxMessages := newMax } =
      (logicalList cc).drop (cc.size - min cc.size newMax) := by
    refine List.ext_getElem? fun i => ?_
    rw [logicalList_getElem?, List.getElem?_drop, logicalList_getElem?]
    simp only
    by_cases hi : i < min cc.size newMax
    · rw [if_pos hi, if_pos (by omega)]
      have h1 : (0 + i) % newMax = i := by
        rw [Nat.zero_add, Nat.mod_eq_of_lt (by omega)]
      rw [h1, slotAt_rangeMap _ (by omega), if_pos hi]
      rw [Nat.add_assoc]
    · rw [if_neg hi, if_neg (by omega)]
  have htake : ((List.range newMax).map
      (fun i => if i < min cc.size newMax then
        slotAt cc.messages ((cc.head + (cc.size - min cc.size newMax) + i) % cc.maxMessages)
      else none)).take (min cc.size newMax) =
      (logicalList cc).drop (cc.size - min cc.size newMax) := by
    rw [← hlog, logicalList]
    simp only
    rw [← List.map_take, List.take_range]
    have hmin : min (min cc.size newMax) newMax = min cc.size newMax := by omega
    rw [hmin]
    refine List.map_congr_left fun i hi => ?_
    rw [List.mem_range] at hi
    have h1 : (0 + i) % newMax = i := by
      rw [Nat.zero_add, Nat.mod_eq_of_lt (by omega)]
    rw [h1, slotAt_rangeMap _ (by omega)]
  refine ⟨hlog, trivial, trivial, ?_, trivial, ?_⟩
  · rw [htake]
  · exact ⟨by simp, hpos, show min cc.size newMax ≤ newMax by omega⟩

/-- Splitting the id set of a list of slots at a position: with no duplicate
ids, the kept suffix's ids are the whole set minus the dropped prefix's. -/
theorem kept_ids_eq_sdiff (l : List (Option Msg))
    (hnodup : (l.filterMap (fun om => om.map Msg.id)).Nodup) (d : Nat) :
    ((l.drop d).filterMap (fun om => om.map Msg.id)).toFinset =
      (l.filterMap (fun om => om.map Msg.id)).toFinset \
        ((l.take d).filterMap (fun om => om.map Msg.id)).toFinset := by
  have hsplit : l.filterMap (fun om => om.map Msg.id) =
      (l.take d).filterMap (fun om => om.map Msg.id) ++
        (l.drop d).filterMap (fun om => om.map Msg.id) := by
    conv_lhs => rw [← List.take_append_drop d l]
    exact List.filterMap_append _ _ _
  rw [hsplit] at hnodup
  rw [hsplit, List.toFinset_append]
  rw [Finset.union_sdiff_cancel_left
    (by rw [List.disjoint_toFinset_iff_disjoint]
        exact List.disjoint_of_nodup_append hnodup)]

/-! ### Cache-level plumbing -/

theorem addMessage_existing {c : MessageCache} {k : String} (hk : ¬ k = "")
    {cc : ChannelCache} (hcc : c.channels.lookup k = some cc) (m : Msg) :
    c.addMessage k (some m) =
      ({ c with channels := setChannel c.channels k (addMessageBuf cc m) }, none) := by
  simp only [MessageCache.addMessage, if_neg hk, hcc]

theorem addMessage_new {c : MessageCache} {k : String} (hk : ¬ k = "")
    (hcc : c.channels.lookup k = none) (m : Msg) :
    c.addMessage k (some m) =
      ({ c with channels :=
          (k, addMessageBuf (freshChannel c.maxMessages.toNat) m) :: c.channels },
       none) := by
  simp only [MessageCache.addMessage, if_neg hk, hcc]

theorem addAll_singleton {k : String} (hk : ¬ k = "") (M : Int) (cc : ChannelCache)
    (ms : List Msg) :
    addAll ⟨[(k, cc)], M⟩ k ms = ⟨[(k, ms.foldl addMessageBuf cc)], M⟩ := by
  induction ms generalizing cc with
  | nil => rfl
  | cons m t ih =>
      have h1 : (MessageCache.addMessage ⟨[(k, cc)], M⟩ k (some m)).1 =
          (⟨[(k, addMessageBuf cc m)], M⟩ : MessageCache) := by
        rw [addMessage_existing hk (lookup_cons_self [] k cc) m]
        simp [setChannel]
      show addAll ((MessageCache.addMessage ⟨[(k, cc)], M⟩ k (some m)).1) k t = _
      rw [h1, ih (addMessageBuf cc m)]
      rfl

theorem int32wrap_eq_self {n : Int} (h0 : 0 ≤ n) (h31 : n < 2 ^ 31) :
    int32wrap n = n := by
  rw [int32wrap]
  omega

theorem newMessageCache_pos {n : Int} (h0 : 0 < n) (h31 : n < 2 ^ 31) :
    newMessageCache n = ⟨[], n⟩ := by
  rw [newMessageCache]
  simp only [if_neg (by omega : ¬ n ≤ 0)]
  rw [int32wrap_eq_self (by omega) h31]

theorem addAll_run {C : Nat} (hC : 0 < C) (hC31 : (C : Int) < 2 ^ 31)
    {k : String} (hk : ¬ k = "") (ms : List Msg) (hms : ms ≠ []) :
    addAll (newMessageCache (C : Int)) k ms =
      ⟨[(k, ms.foldl addMessageBuf (freshChannel C))], (C : Int)⟩ := by
  cases ms with
  | nil => exact absurd rfl hms
  | cons m t =>
      rw [addAll, List.foldl_cons]
      have h2 : (MessageCache.addMessage (newMessageCache (C : Int)) k (some m)).1 =
          (⟨[(k, addMessageBuf (freshChannel C) m)], (C : Int)⟩ : MessageCache) := by
        rw [newMessageCache_pos (by omega) hC31]
        rw [addMessage_new (c := ⟨[], (C : Int)⟩) hk rfl m]
        rfl
      rw [h2]
      exact addAll_singleton hk (C : Int) (addMessageBuf (freshChannel C) m) t

/-! ## Claim theorems -/

/-- C2: after inserting `N` records with pairwise-distinct non-empty ids into
a fresh buffer of capacity `C`, the snapshot is exactly those `N` records in
insertion order when `N ≤ C`, and exactly the last `C` inserted records,
oldest-first, when `N > C` (including when the window wraps the physical
array); `fetchAll` on a cache whose key received exactly those inserts
returns the same. -/
theorem insert_sequence_window (C : Nat) (hC : 0 < C) (hC31 : (C : Int) < 2 ^ 31)
    (k : String) (hk : k ≠ "") (ms : List Msg)
    (hnd : (ms.map Msg.id).Nodup) (_hne : ∀ m ∈ ms, m.id ≠ "") :
    getMessagesBuf (ms.foldl addMessageBuf (freshChannel C)) =
      (ms.map some).drop (ms.length - C) ∧
    (ms ≠ [] → ms.length ≤ C →
      (addAll (newMessageCache (C : Int)) k ms).getMessages k = .ok (ms.map some)) ∧
    (C < ms.length →
      (addAll (newMessageCache (C : Int)) k ms).getMessages k =
        .ok ((ms.drop (ms.length - C)).map some)) := by
  obtain ⟨hWF, hmax, hsz, hids, hlog⟩ := foldl_addMessageBuf_fresh C hC ms hnd
  have h1 : getMessagesBuf (ms.foldl addMessageBuf (freshChannel C)) =
      (ms.map some).drop (ms.length - C) := by
    rw [getMessagesBuf_eq_logical hWF, hlog]
  have hfetch : ms ≠ [] →
      (addAll (newMessageCache (C : Int)) k ms).getMessages k =
        .ok ((ms.map some).drop (ms.length - C)) := by
    intro hms
    rw [addAll_run hC hC31 hk ms hms]
    simp only [MessageCache.getMessages, if_neg hk, lookup_cons_self]
    rw [h1]
  refine ⟨h1, ?_, ?_⟩
  · intro hms hle
    rw [hfetch hms]
    have hz : ms.length - C = 0 := by omega
    rw [hz, List.drop_zero]
  · intro hgt
    have hms : ms ≠ [] := by
      intro h
      rw [h] at hgt
      simp at hgt
    rw [hfetch hms, List.map_drop]

/-- C3: for an existing key whose well-formed buffer has logical size `S` and
any limit `L > 0`, `fetchLimit` succeeds and returns exactly the last
`min (L, S)` entries of the logical window (the most recent ones,
oldest-first), also across physical wraparound. -/
theorem fetchLimit_returns_recent_suffix (c : MessageCache) (k : String)
    (hk : k ≠ "") (cc : ChannelCache) (hcc : c.channels.lookup k = some cc)
    (hWF : WF cc) (L : Int) (hL : 0 < L) :
    c.getMessagesLimit k L = .ok ((logicalList cc).drop (cc.size - L.toNat)) ∧
    ((logicalList cc).drop (cc.size - L.toNat)).length = min L.toNat cc.size := by
  constructor
  · have h2 : ¬ L ≤ 0 := by omega
    simp only [MessageCache.getMessagesLimit, if_neg hk, if_neg h2, hcc]
    rw [getMessagesLimitBuf_eq hWF]
  · rw [List.length_drop, logicalList_length]
    have : 0 < L.toNat := by omega
    omega

/-- C1: evaluation at the failing input of the seen-ids invariant.  With
capacity 1, inserting records "a" then "b" via `AddMessage` evicts "a" but
leaves `"a"` in `messageIDs` (the single-insert path, unlike the batch loop,
never deletes the evicted slot's id), so `messageIDs` differs from the ids
resident in the valid region, and a later re-insert of the evicted record
"a" is silently dropped as a duplicate, leaving the state unchanged. -/
theorem addMessage_eviction_leaves_stale_id :
    ∃ cc,
      (addAll (newMessageCache 1) "ch" [⟨"a", ""⟩, ⟨"b", ""⟩]).channels.lookup "ch" =
        some cc ∧
      "a" ∈ cc.messageIDs ∧ "a" ∉ residentIds cc ∧
      ((addAll (newMessageCache 1) "ch" [⟨"a", ""⟩, ⟨"b", ""⟩]).addMessage "ch"
          (some ⟨"a", ""⟩)).1 =
        addAll (newMessageCache 1) "ch" [⟨"a", ""⟩, ⟨"b", ""⟩] :=
  ⟨_, rfl, by decide, by decide, by decide⟩

/-- C4: `SetMaxMessages` fails with InvalidLimit on a non-positive capacity
and changes nothing; on a positive capacity it succeeds and resizes every
existing key's buffer: growing keeps all `size` records in logical order at
the front with `head = 0` and the id set untouched; shrinking keeps exactly
the most recent `min(size, new)` records in order with `head = 0` and, on a
buffer whose seen-ids match its resident ids (duplicate-free), removes
exactly the dropped records' ids from seen-ids. -/
theorem setMaxMessages_resize_spec (c : MessageCache) (n : Int) :
    (n ≤ 0 → c.setMaxMessages n = (c, some .invalidLimit)) ∧
    (0 < n → (c.setMaxMessages n).2 = none ∧
      ∀ k cc, c.channels.lookup k = some cc → WF cc →
        (c.setMaxMessages n).1.channels.lookup k = some (setMaxBuf cc n.toNat) ∧
        (cc.maxMessages ≤ n.toNat →
          logicalList (setMaxBuf cc n.toNat) = logicalList cc ∧
          (setMaxBuf cc n.toNat).head = 0 ∧
          (setMaxBuf cc n.toNat).size = cc.size ∧
          (setMaxBuf cc n.toNat).messageIDs = cc.messageIDs) ∧
        (n.toNat < cc.maxMessages →
          logicalList (setMaxBuf cc n.toNat) =
            (logicalList cc).drop (cc.size - min cc.size n.toNat) ∧
          (setMaxBuf cc n.toNat).head = 0 ∧
          (setMaxBuf cc n.toNat).size = min cc.size n.toNat ∧
          (cc.messageIDs = residentIds cc →
            ((logicalList cc).filterMap (fun om => om.map Msg.id)).Nodup →
            (setMaxBuf cc n.toNat).messageIDs =
              cc.messageIDs \
                (((logicalList cc).take (cc.size - min cc.size n.toNat)).filterMap
                  (fun om => om.map Msg.id)).toFinset))) := by
  constructor
  · intro hle
    rw [MessageCache.setMaxMessages, if_pos hle]
  · intro hpos
    have hn0 : ¬ n ≤ 0 := by omega
    constructor
    · rw [MessageCache.setMaxMessages, if_neg hn0]
    · intro k cc hcc hWF
      refine ⟨?_, ?_, ?_⟩
      · simp only [MessageCache.setMaxMessages, if_neg hn0]
        have hmap := lookup_map_snd c.channels (fun b => setMaxBuf b n.toNat) k
        rw [hcc] at hmap
        exact hmap
      · intro hge
        obtain ⟨h1, h2, h3, h4, _, _⟩ := setMaxBuf_grow hWF hge
        exact ⟨h1, h2, h3, h4⟩
      · intro hlt
        have hpos2 : 0 < n.toNat := by omega
        obtain ⟨h1, h2, h3, h4, _, _⟩ := setMaxBuf_shrink hWF hlt hpos2
        refine ⟨h1, h2, h3, fun hinv hnodup => ?_⟩
        rw [h4, kept_ids_eq_sdiff (logicalList cc) hnodup, hinv, residentIds]

/-- C5: for a non-empty key, `fetchAll` and `fetchLimit` fail with CacheMiss
exactly when the key was never created in the directory; a key that exists
(even with a cleared/empty buffer) yields a successful result, clearing an
existing key then fetching yields the empty sequence with no error, and
clear on a never-created key succeeds silently as a no-op. -/
theorem cacheMiss_iff_never_created (c : MessageCache) (k : String)
    (hk : k ≠ "") :
    (c.channels.lookup k = none →
      c.getMessages k = .err .cacheMiss ∧
      (∀ L : Int, 0 < L → c.getMessagesLimit k L = .err .cacheMiss) ∧
      c.clearChannel k = (c, none)) ∧
    (∀ cc, c.channels.lookup k = some cc →
      c.getMessages k = .ok (getMessagesBuf cc) ∧
      (∀ L : Int, 0 < L →
        c.getMessagesLimit k L = .ok (getMessagesLimitBuf cc L.toNat)) ∧
      (c.clearChannel k).2 = none ∧
      (c.clearChannel k).1.getMessages k = .ok []) := by
  constructor
  · intro h
    refine ⟨?_, fun L hL => ?_, ?_⟩
    · simp only [MessageCache.getMessages, if_neg hk, h]
    · simp only [MessageCache.getMessagesLimit, if_neg hk,
        if_neg (by omega : ¬ L ≤ 0), h]
    · simp only [MessageCache.clearChannel, if_neg hk, h]
  · intro cc hcc
    have hclear : c.clearChannel k =
        ({ c with channels := setChannel c.channels k (clearBuf cc) }, none) := by
      simp only [MessageCache.clearChannel, if_neg hk, hcc]
    refine ⟨?_, fun L hL => ?_, by rw [hclear], ?_⟩
    · simp only [MessageCache.getMessages, if_neg hk, hcc]
    · simp only [MessageCache.getMessagesLimit, if_neg hk,
        if_neg (by omega : ¬ L ≤ 0), hcc]
    · rw [hclear]
      simp only [MessageCache.getMessages, if_neg hk,
        lookup_setChannel_self hcc (clearBuf cc)]
      rw [getMessagesBuf, if_pos (show (clearBuf cc).size = 0 from rfl)]

/-- C6 counterexample: `AddMessage` checks the nil record before the empty
key, so `insert("", nil)` fails with NilMessage — not with InvalidChannel as
the claim requires for every record including the absent one. -/
theorem insert_nil_before_empty_key_cex :
    ((newMessageCache 5).addMessage "" none).2 = some CacheError.nilMessage ∧
      some CacheError.nilMessage ≠ some CacheError.invalidChannel := by
  exact ⟨rfl, by decide⟩

/-- C6 amended: `insert` fails with NilMessage whenever the record is absent
(even when the key is also empty, since the nil check comes first), and
fails with InvalidChannel when the record is present and the key is empty;
in both failure cases the cache state is returned unchanged. -/
theorem insert_error_precedence (c : MessageCache) (k : String)
    (om : Option Msg) :
    (om = none → c.addMessage k om = (c, some .nilMessage)) ∧
    (k = "" → ∀ m, om = some m → c.addMessage k om = (c, some .invalidChannel)) := by
  constructor
  · intro h
    subst h
    rfl
  · intro hk m h
    subst h
    subst hk
    simp [MessageCache.addMessage]

/-- C7 counterexample: on an existing key whose buffer is empty,
`GetMessagesUnsafe` returns the nil slice (`nil, nil` in the source), which
is not an empty non-null sequence. -/
theorem fetchAllUnsafe_nil_on_empty_cex :
    emptyChanCache.getMessagesUnsafe "ch" = .nilSlice ∧
      FetchResult.nilSlice ≠ .ok [] := by
  exact ⟨by decide, by decide⟩

/-- C7 amended: on an existing key whose buffer has size 0, `fetchAll` and
`fetchLimit` (limit > 0) succeed with an empty non-null sequence, while
`fetchAllUnsafe` succeeds (no error) but returns the nil slice. -/
theorem empty_buffer_fetch_results (c : MessageCache) (k : String)
    (hk : k ≠ "") (cc : ChannelCache) (hcc : c.channels.lookup k = some cc)
    (h0 : cc.size = 0) (L : Int) (hL : 0 < L) :
    c.getMessages k = .ok [] ∧ c.getMessagesLimit k L = .ok [] ∧
    c.getMessagesUnsafe k = .nilSlice := by
  refine ⟨?_, ?_, ?_⟩
  · simp only [MessageCache.getMessages, if_neg hk, hcc]
    rw [getMessagesBuf, if_pos h0]
  · simp only [MessageCache.getMessagesLimit, if_neg hk,
      if_neg (by omega : ¬ L ≤ 0), hcc]
    rw [getMessagesLimitBuf, if_pos h0]
  · simp only [MessageCache.getMessagesUnsafe, if_neg hk, hcc, h0, if_pos]

/-- C8: inserting a record whose id is already in the key's seen-ids set is
an idempotent successful no-op: every directory lookup (hence head, size,
slots and seen-ids of every buffer) is unchanged, and `fetchAll` returns the
same sequence before and after. -/
theorem duplicate_insert_noop (c : MessageCache) (k : String) (hk : k ≠ "")
    (cc : ChannelCache) (hcc : c.channels.lookup k = some cc) (m : Msg)
    (hdup : m.id ∈ cc.messageIDs) :
    (c.addMessage k (some m)).2 = none ∧
    (∀ k', (c.addMessage k (some m)).1.channels.lookup k' =
      c.channels.lookup k') ∧
    (∀ k', (c.addMessage k (some m)).1.getMessages k' = c.getMessages k') := by
  have hstep : c.addMessage k (some m) =
      ({ c with channels := setChannel c.channels k cc }, none) := by
    rw [addMessage_existing hk hcc m, addMessageBuf_dup hdup]
  have hlook : ∀ k', (setChannel c.channels k cc).lookup k' =
      c.channels.lookup k' := by
    intro k'
    by_cases hkk : k' = k
    · subst hkk
      rw [lookup_setChannel_self hcc cc, hcc]
    · exact lookup_setChannel_ne cc hkk
  refine ⟨by rw [hstep], fun k' => by rw [hstep]; exact hlook k', fun k' => ?_⟩
  rw [hstep]
  by_cases hk' : k' = ""
  · subst hk'
    simp [MessageCache.getMessages]
  · simp only [MessageCache.getMessages, if_neg hk', hlook k']

/-- C9: the fetch operations are embedded as pure functions of the cache —
the source performs no writes in them, so they can neither create a
directory entry nor touch any buffer.  For the mutating entry points this
theorem shows the rest of the claim: clear on a key absent from the
directory returns the cache unchanged with no error, and neither clear nor
resize ever creates (or removes) a directory key — only the insert paths
do. -/
theorem readonly_frame_spec (c : MessageCache) :
    (∀ k, k ≠ "" → c.channels.lookup k = none → c.clearChannel k = (c, none)) ∧
    (∀ k k', ((c.clearChannel k).1.channels.lookup k').isSome =
      (c.channels.lookup k').isSome) ∧
    (∀ n k', ((c.setMaxMessages n).1.channels.lookup k').isSome =
      (c.channels.lookup k').isSome) := by
  refine ⟨?_, ?_, ?_⟩
  · intro k hk h
    simp only [MessageCache.clearChannel, if_neg hk, h]
  · intro k k'
    by_cases hk : k = ""
    · subst hk
      simp [MessageCache.clearChannel]
    · cases hcc : c.channels.lookup k with
      | none => simp only [MessageCache.clearChannel, if_neg hk, hcc]
      | some cc =>
          simp only [MessageCache.clearChannel, if_neg hk, hcc]
          by_cases hkk : k' = k
          · subst hkk
            rw [lookup_setChannel_self hcc (clearBuf cc), hcc]
            rfl
          · rw [lookup_setChannel_ne _ hkk]
  · intro n k'
    by_cases hn : n ≤ 0
    · simp only [MessageCache.setMaxMessages, if_pos hn]
    · simp only [MessageCache.setMaxMessages, if_neg hn]
      have hmap := lookup_map_snd c.channels (fun b => setMaxBuf b n.toNat) k'
      rw [hmap]
      cases c.channels.lookup k' <;> rfl

/-- C10: the cache's default capacity is stored as a 32-bit integer: any
`setCapacity` with a positive argument succeeds and stores the argument
truncated to 32 bits (two's-complement wrap), as does `newCache`; the
capacity handed to a key created afterwards is that truncated value, which
for arguments ≥ 2^31 can be zero or negative. -/
theorem int32_default_capacity (c : MessageCache) (n : Int) (h : 0 < n) :
    (c.setMaxMessages n).2 = none ∧
    newChannelCapacityInt (c.setMaxMessages n).1 = int32wrap n ∧
    newChannelCapacityInt (newMessageCache n) = int32wrap n ∧
    (∀ k m, k ≠ "" → (c.setMaxMessages n).1.channels.lookup k = none →
      ((c.setMaxMessages n).1.addMessage k (some m)).1.channels.lookup k =
        some (addMessageBuf (freshChannel (int32wrap n).toNat) m)) := by
  have hn0 : ¬ n ≤ 0 := by omega
  have hstep : c.setMaxMessages n =
      (⟨c.channels.map (fun p => (p.1, setMaxBuf p.2 n.toNat)), int32wrap n⟩,
        none) := by
    rw [MessageCache.setMaxMessages, if_neg hn0]
  refine ⟨by rw [hstep], by rw [hstep]; rfl, ?_, ?_⟩
  · rw [newMessageCache, newChannelCapacityInt]
    simp only [if_neg hn0]
  · intro k m hk hnone
    rw [hstep] at hnone ⊢
    rw [addMessage_new
      (c := ⟨c.channels.map (fun p => (p.1, setMaxBuf p.2 n.toNat)), int32wrap n⟩)
      hk hnone m]
    exact lookup_cons_self _ _ _

/-! ## Witnesses -/

/-- Witness for C2 at capacity 3 with the five sample records: `fetchAll`
returns the last three, oldest-first. -/
theorem insert_sequence_window_witness :
    3 < sampleMsgs.length ∧
    (addAll (newMessageCache ((3 : Nat) : Int)) "ch" sampleMsgs).getMessages "ch" =
      .ok ((sampleMsgs.drop (sampleMsgs.length - 3)).map some) :=
  ⟨by decide,
   (insert_sequence_window 3 (by decide) (by decide) "ch" (by decide) sampleMsgs
      (by decide) (by decide)).2.2 (by decide)⟩

/-- Witness for C3 on the wrapped capacity-3 sample buffer with limit 2. -/
theorem fetchLimit_returns_recent_suffix_witness :
    (0 : Int) < 2 ∧
    sampleCache3.getMessagesLimit "ch" 2 =
      .ok ((logicalList sampleBuf3).drop (sampleBuf3.size - (2 : Int).toNat)) :=
  ⟨by decide,
   (fetchLimit_returns_recent_suffix sampleCache3 "ch" (by decide) sampleBuf3
      (by decide) (by decide) 2 (by decide)).1⟩

/-- Witness for C4: shrinking the full capacity-5 sample buffer to 3 keeps
the most recent three records and removes exactly the dropped ids. -/
theorem setMaxMessages_resize_spec_witness :
    (0 : Int) < 3 ∧
    (sampleCache5.setMaxMessages 3).2 = none ∧
    (sampleCache5.setMaxMessages 3).1.channels.lookup "ch" =
      some (setMaxBuf sampleBuf5 (3 : Int).toNat) ∧
    logicalList (setMaxBuf sampleBuf5 (3 : Int).toNat) =
      (logicalList sampleBuf5).drop
        (sampleBuf5.size - min sampleBuf5.size (3 : Int).toNat) ∧
    (setMaxBuf sampleBuf5 (3 : Int).toNat).messageIDs =
      sampleBuf5.messageIDs \
        (((logicalList sampleBuf5).take
          (sampleBuf5.size - min sampleBuf5.size (3 : Int).toNat)).filterMap
            (fun om => om.map Msg.id)).toFinset :=
  ⟨by decide,
   ((setMaxMessages_resize_spec sampleCache5 3).2 (by decide)).1,
   (((setMaxMessages_resize_spec sampleCache5 3).2 (by decide)).2 "ch" sampleBuf5
      (by decide) (by decide)).1,
   ((((setMaxMessages_resize_spec sampleCache5 3).2 (by decide)).2 "ch" sampleBuf5
      (by decide) (by decide)).2.2 (by decide)).1,
   ((((setMaxMessages_resize_spec sampleCache5 3).2 (by decide)).2 "ch" sampleBuf5
      (by decide) (by decide)).2.2 (by decide)).2.2.2 (by decide) (by decide)⟩

/-- Witness for C5 on the sample cache: a never-created key misses, clear on
it is a silent no-op, and clearing the existing key then fetching yields the
empty sequence. -/
theorem cacheMiss_iff_never_created_witness :
    sampleCache3.getMessages "nope" = .err .cacheMiss ∧
    sampleCache3.clearChannel "nope" = (sampleCache3, none) ∧
    (sampleCache3.clearChannel "ch").1.getMessages "ch" = .ok [] :=
  ⟨((cacheMiss_iff_never_created sampleCache3 "nope" (by decide)).1 (by decide)).1,
   ((cacheMiss_iff_never_created sampleCache3 "nope" (by decide)).1 (by decide)).2.2,
   ((cacheMiss_iff_never_created sampleCache3 "ch" (by decide)).2 sampleBuf3
      (by decide)).2.2.2⟩

/-- Witness for C6 (amended): both failure modes at concrete inputs. -/
theorem insert_error_precedence_witness :
    (newMessageCache 5).addMessage "" none =
      (newMessageCache 5, some .nilMessage) ∧
    (newMessageCache 5).addMessage "" (some ⟨"x", ""⟩) =
      (newMessageCache 5, some .invalidChannel) :=
  ⟨(insert_error_precedence (newMessageCache 5) "" none).1 rfl,
   (insert_error_precedence (newMessageCache 5) "" (some ⟨"x", ""⟩)).2 rfl
      ⟨"x", ""⟩ rfl⟩

/-- Witness for C7 (amended) on the cache whose key holds an empty buffer. -/
theorem empty_buffer_fetch_results_witness :
    (0 : Int) < 3 ∧
    emptyChanCache.getMessages "ch" = .ok [] ∧
    emptyChanCache.getMessagesLimit "ch" 3 = .ok [] ∧
    emptyChanCache.getMessagesUnsafe "ch" = .nilSlice :=
  ⟨by decide,
   (empty_buffer_fetch_results emptyChanCache "ch" (by decide) (freshChannel 5)
      (by decide) (by decide) 3 (by decide)).1,
   (empty_buffer_fetch_results emptyChanCache "ch" (by decide) (freshChannel 5)
      (by decide) (by decide) 3 (by decide)).2.1,
   (empty_buffer_fetch_results emptyChanCache "ch" (by decide) (freshChannel 5)
      (by decide) (by decide) 3 (by decide)).2.2⟩

/-- Witness for C8: re-inserting the resident record "4" into the sample
cache succeeds, changes nothing, and `fetchAll` is unchanged. -/
theorem duplicate_insert_noop_witness :
    (sampleCache3.addMessage "ch" (some ⟨"4", ""⟩)).2 = none ∧
    (sampleCache3.addMessage "ch" (some ⟨"4", ""⟩)).1.getMessages "ch" =
      sampleCache3.getMessages "ch" :=
  ⟨(duplicate_insert_noop sampleCache3 "ch" (by decide) sampleBuf3 (by decide)
      ⟨"4", ""⟩ (by decide)).1,
   (duplicate_insert_noop sampleCache3 "ch" (by decide) sampleBuf3 (by decide)
      ⟨"4", ""⟩ (by decide)).2.2 "ch"⟩

/-- Witness for C9: clear on a never-created key of the sample cache leaves
the state unchanged. -/
theorem readonly_frame_spec_witness :
    sampleCache3.clearChannel "nope" = (sampleCache3, none) :=
  (readonly_frame_spec sampleCache3).1 "nope" (by decide) (by decide)

/-- Witness for C10 at `n = 2^31`: the call succeeds and the stored default
capacity wraps to `-2^31`, a negative effective capacity. -/
theorem int32_default_capacity_witness :
    (0 : Int) < 2 ^ 31 ∧
    ((newMessageCache 100).setMaxMessages (2 ^ 31)).2 = none ∧
    newChannelCapacityInt ((newMessageCache 100).setMaxMessages (2 ^ 31)).1 =
      int32wrap (2 ^ 31) ∧
    int32wrap (2 ^ 31) = -(2 ^ 31) :=
  ⟨by decide,
   (int32_default_capacity (newMessageCache 100) (2 ^ 31) (by decide)).1,
   (int32_default_capacity (newMessageCache 100) (2 ^ 31) (by decide)).2.1,
   by decide⟩

end Dgocacheler
